import Mathlib

/-!
Shallow embedding of the portfolio ledger service (src/main.py).

Python floats are modelled as exact rationals (`Rat`).  The mutating
endpoints `buy_stock` and `sell_stock` mutate a per-user portfolio record
in place and raise an HTTP error on failure; they are embedded in
state-passing style, returning the portfolio state at the point where the
function returns or raises, together with an `Except` carrying either the
returned transaction id or the raised error kind.  Timestamps
(`datetime.utcnow().isoformat()`) are an opaque `now : String` parameter,
and the yfinance price lookup (`get_current_price`, which already maps
every failure to `0.0`) is an oracle parameter `price : String → Rat`.
The per-user dictionary lookup and JSON persistence are service plumbing
outside the ledger logic modelled here.
-/

namespace PortfolioService

/-- The `Position` model (src/main.py lines 35-43).  The four derived fields are
`Optional` in the source with default `None`. -/
structure Position where
  ticker : String
  quantity : Rat
  avgCostBasis : Rat
  currentPrice : Option Rat := none
  marketValue : Option Rat := none
  unrealizedPL : Option Rat := none
  unrealizedPLPercent : Option Rat := none
  addedAt : String
  deriving DecidableEq, Repr

/-- The `Transaction` model (src/main.py lines 45-52). -/
structure Transaction where
  id : String
  ticker : String
  type : String
  quantity : Rat
  price : Rat
  timestamp : String
  fees : Rat := 0
  deriving DecidableEq, Repr

/-- The `Portfolio` model (src/main.py lines 54-61), with the three derived
aggregate fields `Optional` defaulting to `None`. -/
structure Portfolio where
  userId : String
  cash : Rat
  positions : List Position
  transactions : List Transaction
  totalValue : Option Rat := none
  totalPL : Option Rat := none
  totalPLPercent : Option Rat := none
  deriving DecidableEq, Repr

/-- The error kinds a buy or sell can raise once the portfolio exists
(the `HTTPException`s of src/main.py lines 183, 245, 248). -/
inductive TradeError where
  | insufficientFunds
  | positionNotFound
  | insufficientShares
  deriving DecidableEq, Repr

/-- The first position whose ticker matches: the lookup loop of
src/main.py lines 189-193 and 238-242. -/
def findPosition (positions : List Position) (ticker : String) : Option Position :=
  positions.find? (fun pos => pos.ticker == ticker)

/-- The in-place update of the first position matching the ticker on a buy
(src/main.py lines 195-200): weighted-average cost basis, then quantity.
Division on `Rat` is total (`x / 0 = 0`), whereas the source's float
division raises `ZeroDivisionError` when `pos.quantity + quantity = 0`;
`buyUpdateChecked` below models that division partially, and
`buy_stock_checked` carries the crash through the endpoint. -/
def buyUpdate (ticker : String) (quantity price : Rat) : List Position → List Position
  | [] => []
  | pos :: rest =>
    if pos.ticker == ticker then
      { pos with
        avgCostBasis :=
          (pos.quantity * pos.avgCostBasis + quantity * price) / (pos.quantity + quantity),
        quantity := pos.quantity + quantity } :: rest
    else
      pos :: buyUpdate ticker quantity price rest

/-- The same update with the source's division modelled partially: Python
raises `ZeroDivisionError` on float division by zero, so when the updated
total quantity `pos.quantity + quantity` of the first matching position is
zero the update yields `none` (the raise at src/main.py line 199) instead
of a value. -/
def buyUpdateChecked (ticker : String) (quantity price : Rat) :
    List Position → Option (List Position)
  | [] => some []
  | pos :: rest =>
    if pos.ticker == ticker then
      if pos.quantity + quantity = 0 then none
      else
        some ({ pos with
          avgCostBasis :=
            (pos.quantity * pos.avgCostBasis + quantity * price) / (pos.quantity + quantity),
          quantity := pos.quantity + quantity } :: rest)
    else
      (buyUpdateChecked ticker quantity price rest).map (fun l => pos :: l)

/-- The in-place update of the first position matching the ticker on a sell
(src/main.py lines 256-260): decrement the quantity, and remove the
position entirely when the result is zero. -/
def sellUpdate (ticker : String) (quantity : Rat) : List Position → List Position
  | [] => []
  | pos :: rest =>
    if pos.ticker == ticker then
      if pos.quantity - quantity = 0 then rest
      else { pos with quantity := pos.quantity - quantity } :: rest
    else
      pos :: sellUpdate ticker quantity rest

/-- The endpoint `buy_stock` (src/main.py lines 167-224), from the point where the
user's portfolio has been found.  Returns the portfolio state at exit
together with the transaction id, or the raised error with the state at
the raise (no statement before the raise mutates the portfolio). -/
def buy_stock (P : Portfolio) (ticker : String) (quantity price : Rat) (now : String) :
    Portfolio × Except TradeError String :=
  let total_cost := quantity * price
  if P.cash < total_cost then
    (P, Except.error TradeError.insufficientFunds)
  else
    let positions :=
      match findPosition P.positions ticker with
      | some _ => buyUpdate ticker quantity price P.positions
      | none => P.positions ++
          [{ ticker := ticker, quantity := quantity, avgCostBasis := price, addedAt := now }]
    let transaction_id := "txn_" ++ toString (P.transactions.length + 1)
    ({ P with
        cash := P.cash - total_cost,
        positions := positions,
        transactions := P.transactions ++
          [{ id := transaction_id, ticker := ticker, type := "buy", quantity := quantity,
             price := price, timestamp := now, fees := 0 }] },
     Except.ok transaction_id)

/-- The endpoint `buy_stock` with the `ZeroDivisionError` of src/main.py
line 199 modelled: `none` is the unhandled crash (the exception escapes the
endpoint as an HTTP 500 and `save_portfolios` on line 222 never runs, so
the stored portfolio is unchanged); `some` is the normal path, identical
to `buy_stock`. -/
def buy_stock_checked (P : Portfolio) (ticker : String) (quantity price : Rat)
    (now : String) : Option (Portfolio × Except TradeError String) :=
  let total_cost := quantity * price
  if P.cash < total_cost then
    some (P, Except.error TradeError.insufficientFunds)
  else
    let transaction_id := "txn_" ++ toString (P.transactions.length + 1)
    let withPositions : List Position → Portfolio × Except TradeError String :=
      fun positions =>
        ({ P with
            cash := P.cash - total_cost,
            positions := positions,
            transactions := P.transactions ++
              [{ id := transaction_id, ticker := ticker, type := "buy", quantity := quantity,
                 price := price, timestamp := now, fees := 0 }] },
         Except.ok transaction_id)
    match findPosition P.positions ticker with
    | some _ => (buyUpdateChecked ticker quantity price P.positions).map withPositions
    | none =>
      some (withPositions (P.positions ++
        [{ ticker := ticker, quantity := quantity, avgCostBasis := price, addedAt := now }]))

/-- The endpoint `sell_stock` (src/main.py lines 226-276), from the point where the
user's portfolio has been found. -/
def sell_stock (P : Portfolio) (ticker : String) (quantity price : Rat) (now : String) :
    Portfolio × Except TradeError String :=
  match findPosition P.positions ticker with
  | none => (P, Except.error TradeError.positionNotFound)
  | some position =>
    if position.quantity < quantity then
      (P, Except.error TradeError.insufficientShares)
    else
      let transaction_id := "txn_" ++ toString (P.transactions.length + 1)
      ({ P with
          cash := P.cash + quantity * price,
          positions := sellUpdate ticker quantity P.positions,
          transactions := P.transactions ++
            [{ id := transaction_id, ticker := ticker, type := "sell", quantity := quantity,
               price := price, timestamp := now, fees := 0 }] },
       Except.ok transaction_id)

/-- Market value of one position at the oracle's current price
(src/main.py line 109). -/
def positionMarketValue (price : String → Rat) (pos : Position) : Rat :=
  pos.quantity * price pos.ticker

/-- Cost basis of one position (src/main.py line 113). -/
def positionCostBasis (pos : Position) : Rat :=
  pos.quantity * pos.avgCostBasis

/-- The per-position enrichment performed inside the loop of
`calculate_portfolio_metrics` (src/main.py lines 103-118). -/
def valuePosition (price : String → Rat) (pos : Position) : Position :=
  let market_value := positionMarketValue price pos
  let cost_basis := positionCostBasis pos
  let unrealized_pl := market_value - cost_basis
  { pos with
    currentPrice := some (price pos.ticker),
    marketValue := some market_value,
    unrealizedPL := some unrealized_pl,
    unrealizedPLPercent := some (if cost_basis > 0 then unrealized_pl / cost_basis * 100 else 0) }

/-- The accumulated `total_market_value` of src/main.py lines 100, 120:
cash plus the sum of the position market values. -/
def totalMarketValue (price : String → Rat) (P : Portfolio) : Rat :=
  P.cash + (P.positions.map (positionMarketValue price)).sum

/-- The accumulated `total_cost_basis` of src/main.py lines 101, 121. -/
def totalCostBasis (P : Portfolio) : Rat :=
  P.cash + (P.positions.map positionCostBasis).sum

/-- The helper `calculate_portfolio_metrics` (src/main.py lines 98-128). -/
def calculate_portfolio_metrics (price : String → Rat) (P : Portfolio) : Portfolio :=
  let total_market_value := totalMarketValue price P
  let total_cost_basis := totalCostBasis P
  { P with
    positions := P.positions.map (valuePosition price),
    totalValue := some total_market_value,
    totalPL := some (total_market_value - total_cost_basis),
    totalPLPercent := some (if total_cost_basis > 0 then
      (total_market_value - total_cost_basis) / total_cost_basis * 100 else 0) }

/-- The record returned by `get_performance` (src/main.py lines 306-314). -/
structure PerformanceReport where
  initialValue : Rat
  currentValue : Rat
  totalReturn : Rat
  totalPL : Rat
  totalPLPercent : Rat
  cash : Rat
  investedValue : Rat
  deriving DecidableEq, Repr

/-- The performance computation of src/main.py lines 299-314, factored
over the initial value it is supplied (the engine-level
`computePerformance(portfolio, priceOracle, initialValue)` of the spec);
`get_performance` supplies the fixed starting cash `100000`. -/
def computePerformance (price : String → Rat) (P : Portfolio) (initial_value : Rat) :
    PerformanceReport :=
  let m := calculate_portfolio_metrics price P
  let current_value := m.totalValue.getD 0
  { initialValue := initial_value,
    currentValue := current_value,
    totalReturn := (current_value - initial_value) / initial_value * 100,
    totalPL := m.totalPL.getD 0,
    totalPLPercent := m.totalPLPercent.getD 0,
    cash := m.cash,
    investedValue := current_value - m.cash }

/-- The endpoint `get_performance` (src/main.py lines 289-314), from the point where the
user's portfolio has been found: `initial_value = 100000.0`. -/
def get_performance (price : String → Rat) (P : Portfolio) : PerformanceReport :=
  computePerformance price P 100000

/-- One mutating ledger request: the argument vector of a call to
`buy_stock` or `sell_stock`. -/
inductive Op where
  | buy (ticker : String) (quantity price : Rat) (now : String)
  | sell (ticker : String) (quantity price : Rat) (now : String)
  deriving DecidableEq, Repr

/-- Dispatch one request to the corresponding endpoint. -/
def applyOp (P : Portfolio) : Op → Portfolio × Except TradeError String
  | Op.buy t q p now => buy_stock P t q p now
  | Op.sell t q p now => sell_stock P t q p now

/-- The argument preconditions of the spec: `quantity > 0`, `price >= 0`. -/
def validOp : Op → Prop
  | Op.buy _ q p _ => 0 < q ∧ 0 ≤ p
  | Op.sell _ q p _ => 0 < q ∧ 0 ≤ p

/-- Run a sequence of requests, requiring every one of them to be accepted
(`some` is the state after all succeeded; `none` meaning some request in
the sequence was rejected). -/
def runOps (P : Portfolio) : List Op → Option Portfolio
  | [] => some P
  | op :: rest =>
    match applyOp P op with
    | (Q, Except.ok _) => runOps Q rest
    | (_, Except.error _) => none

/-- The transaction ids of a portfolio read `txn_1, txn_2, …` in log order. -/
def idsSequential (P : Portfolio) : Prop :=
  ∀ i (h : i < P.transactions.length),
    (P.transactions[i]).id = "txn_" ++ toString (i + 1)

/-- Decimal digit characters of a natural number, most significant first:
the list of characters `Nat.repr` produces (proved below). -/
def reprChars (n : Nat) : List Char :=
  if n < 10 then [Nat.digitChar n]
  else reprChars (n / 10) ++ [Nat.digitChar (n % 10)]
decreasing_by
  exact Nat.div_lt_self (by omega) (by omega)

/-- A fresh ledger as seeded on first access (src/main.py lines 153-159). -/
def freshLedger : Portfolio :=
  { userId := "user_1", cash := 100000, positions := [], transactions := [] }

/-- A concrete one-position ledger used to evaluate the theorems. -/
def applePos : Position :=
  { ticker := "AAPL", quantity := 10, avgCostBasis := 100, addedAt := "t0" }

/-- A concrete ledger holding `applePos` and some cash. -/
def sampleLedger : Portfolio :=
  { userId := "user_1", cash := 10000, positions := [applePos], transactions := [] }

/-- The ledger reached from `freshLedger` by the single accepted request
`buy AAPL 10 @ 100`. -/
def afterBuy : Portfolio :=
  { userId := "user_1", cash := 99000,
    positions := [{ ticker := "AAPL", quantity := 10, avgCostBasis := 100, addedAt := "t1" }],
    transactions := [{ id := "txn_1", ticker := "AAPL", type := "buy", quantity := 10,
                       price := 100, timestamp := "t1", fees := 0 }] }

/-- The ledger reached from `freshLedger` by two accepted buys of AAPL,
10 @ 100 and then 10 @ 200. -/
def afterTwoBuys : Portfolio :=
  { userId := "user_1", cash := 97000,
    positions := [{ ticker := "AAPL", quantity := 20, avgCostBasis := 150, addedAt := "t1" }],
    transactions :=
      [{ id := "txn_1", ticker := "AAPL", type := "buy", quantity := 10, price := 100,
         timestamp := "t1", fees := 0 },
       { id := "txn_2", ticker := "AAPL", type := "buy", quantity := 10, price := 200,
         timestamp := "t2", fees := 0 }] }

/-! ### Basic lemmas about the position lookup and updates -/

lemma findPosition_eq_none {l : List Position} {t : String} :
    findPosition l t = none ↔ ∀ x ∈ l, x.ticker ≠ t := by
  simp [findPosition, List.find?_eq_none]

lemma findPosition_cons_of_eq {pos : Position} {t : String} (rest : List Position)
    (h : pos.ticker = t) : findPosition (pos :: rest) t = some pos := by
  simp [findPosition, List.find?_cons, h]

lemma findPosition_cons_of_ne {pos : Position} {t : String} (rest : List Position)
    (h : pos.ticker ≠ t) : findPosition (pos :: rest) t = findPosition rest t := by
  have hx : (pos.ticker == t) = false := beq_eq_false_iff_ne.mpr h
  simp [findPosition, List.find?_cons, hx]

lemma findPosition_append {l1 l2 : List Position} {t : String}
    (h : ∀ x ∈ l1, x.ticker ≠ t) :
    findPosition (l1 ++ l2) t = findPosition l2 t := by
  induction l1 with
  | nil => rfl
  | cons x xs ih =>
    rw [List.cons_append, findPosition_cons_of_ne _ (h x (List.mem_cons_self x xs))]
    exact ih fun y hy => h y (List.mem_cons_of_mem _ hy)

lemma buyUpdate_cons_of_eq {pos : Position} {t : String} (q p : Rat) (rest : List Position)
    (h : pos.ticker = t) :
    buyUpdate t q p (pos :: rest) =
      { pos with
        avgCostBasis := (pos.quantity * pos.avgCostBasis + q * p) / (pos.quantity + q),
        quantity := pos.quantity + q } :: rest := by
  simp [buyUpdate, h]

lemma buyUpdate_append {t : String} {q p : Rat} {l1 : List Position}
    (h : ∀ x ∈ l1, x.ticker ≠ t) (l2 : List Position) :
    buyUpdate t q p (l1 ++ l2) = l1 ++ buyUpdate t q p l2 := by
  induction l1 with
  | nil => rfl
  | cons x xs ih =>
    have hx : (x.ticker == t) = false :=
      beq_eq_false_iff_ne.mpr (h x (List.mem_cons_self x xs))
    simp only [List.cons_append, buyUpdate, hx, Bool.false_eq_true, if_false, List.cons.injEq,
      true_and]
    exact ih fun y hy => h y (List.mem_cons_of_mem _ hy)

lemma sellUpdate_cons_of_eq {pos : Position} {t : String} (q : Rat) (rest : List Position)
    (h : pos.ticker = t) :
    sellUpdate t q (pos :: rest) =
      if pos.quantity - q = 0 then rest
      else { pos with quantity := pos.quantity - q } :: rest := by
  simp [sellUpdate, h]

lemma sellUpdate_append {t : String} {q : Rat} {l1 : List Position}
    (h : ∀ x ∈ l1, x.ticker ≠ t) (l2 : List Position) :
    sellUpdate t q (l1 ++ l2) = l1 ++ sellUpdate t q l2 := by
  induction l1 with
  | nil => rfl
  | cons x xs ih =>
    have hx : (x.ticker == t) = false :=
      beq_eq_false_iff_ne.mpr (h x (List.mem_cons_self x xs))
    simp only [List.cons_append, sellUpdate, hx, Bool.false_eq_true, if_false, List.cons.injEq,
      true_and]
    exact ih fun y hy => h y (List.mem_cons_of_mem _ hy)

/-! ### Unfolding lemmas for the two endpoints -/

lemma buy_stock_of_lt {P : Portfolio} {t : String} {q p : Rat} {now : String}
    (h : P.cash < q * p) :
    buy_stock P t q p now = (P, Except.error TradeError.insufficientFunds) := by
  simp [buy_stock, h]

lemma buy_stock_ok_existing {P : Portfolio} {t : String} {q p : Rat} {now : String}
    (h : ¬ P.cash < q * p) {pos : Position} (hf : findPosition P.positions t = some pos) :
    buy_stock P t q p now =
      ({ P with
          cash := P.cash - q * p,
          positions := buyUpdate t q p P.positions,
          transactions := P.transactions ++
            [{ id := "txn_" ++ toString (P.transactions.length + 1), ticker := t, type := "buy",
               quantity := q, price := p, timestamp := now, fees := 0 }] },
       Except.ok ("txn_" ++ toString (P.transactions.length + 1))) := by
  simp [buy_stock, h, hf]

lemma buy_stock_ok_new {P : Portfolio} {t : String} {q p : Rat} {now : String}
    (h : ¬ P.cash < q * p) (hf : findPosition P.positions t = none) :
    buy_stock P t q p now =
      ({ P with
          cash := P.cash - q * p,
          positions := P.positions ++
            [{ ticker := t, quantity := q, avgCostBasis := p, addedAt := now }],
          transactions := P.transactions ++
            [{ id := "txn_" ++ toString (P.transactions.length + 1), ticker := t, type := "buy",
               quantity := q, price := p, timestamp := now, fees := 0 }] },
       Except.ok ("txn_" ++ toString (P.transactions.length + 1))) := by
  simp [buy_stock, h, hf]

lemma sell_stock_not_found {P : Portfolio} {t : String} {q p : Rat} {now : String}
    (hf : findPosition P.positions t = none) :
    sell_stock P t q p now = (P, Except.error TradeError.positionNotFound) := by
  simp [sell_stock, hf]

lemma sell_stock_insufficient {P : Portfolio} {t : String} {q p : Rat} {now : String}
    {pos : Position} (hf : findPosition P.positions t = some pos) (hq : pos.quantity < q) :
    sell_stock P t q p now = (P, Except.error TradeError.insufficientShares) := by
  simp [sell_stock, hf, hq]

lemma sell_stock_ok {P : Portfolio} {t : String} {q p : Rat} {now : String}
    {pos : Position} (hf : findPosition P.positions t = some pos) (hq : ¬ pos.quantity < q) :
    sell_stock P t q p now =
      ({ P with
          cash := P.cash + q * p,
          positions := sellUpdate t q P.positions,
          transactions := P.transactions ++
            [{ id := "txn_" ++ toString (P.transactions.length + 1), ticker := t, type := "sell",
               quantity := q, price := p, timestamp := now, fees := 0 }] },
       Except.ok ("txn_" ++ toString (P.transactions.length + 1))) := by
  simp [sell_stock, hf, hq]

/-! ### Claim theorems -/

/-- C1: a successful buy of quantity `q` at price `p` updates an existing
position for the ticker to quantity `q0 + q` and average cost basis
`(q0*a0 + q*p)/(q0 + q)`, leaving the positions before it (none of which
carry the ticker) and after it unchanged; with no position for the ticker
it appends exactly one new position with quantity `q` and cost basis `p`. -/
theorem buy_position_update (P : Portfolio) (t : String) (q p : Rat) (now : String)
    (hfunds : ¬ P.cash < q * p) :
    (∀ l1 pos l2, P.positions = l1 ++ pos :: l2 → pos.ticker = t →
      (∀ x ∈ l1, x.ticker ≠ t) →
      (buy_stock P t q p now).1.positions = l1 ++
        { pos with
          avgCostBasis := (pos.quantity * pos.avgCostBasis + q * p) / (pos.quantity + q),
          quantity := pos.quantity + q } :: l2) ∧
    ((∀ x ∈ P.positions, x.ticker ≠ t) →
      (buy_stock P t q p now).1.positions = P.positions ++
        [{ ticker := t, quantity := q, avgCostBasis := p, addedAt := now }]) := by
  constructor
  · intro l1 pos l2 hsplit hticker hleft
    have hf : findPosition P.positions t = some pos := by
      rw [hsplit, findPosition_append hleft, findPosition_cons_of_eq _ hticker]
    rw [buy_stock_ok_existing hfunds hf]
    simp only [hsplit, buyUpdate_append hleft, buyUpdate_cons_of_eq _ _ _ hticker]
  · intro hnone
    rw [buy_stock_ok_new hfunds (findPosition_eq_none.mpr hnone)]

/-- C1 witness: buying 10 more AAPL at 200 on top of 10 held at average 100
yields the single position AAPL, quantity 20, average cost basis 150. -/
theorem buy_position_update_eval :
    (buy_stock sampleLedger "AAPL" 10 200 "t1").1.positions =
      [{ ticker := "AAPL", quantity := 20, avgCostBasis := 150, addedAt := "t0" }] := by
  have h := (buy_position_update sampleLedger "AAPL" 10 200 "t1"
      (by norm_num [sampleLedger])).1 [] applePos []
      (by simp [sampleLedger]) rfl (by simp)
  norm_num [applePos] at h
  exact h

/-- C3: an existing portfolio's buy fails with `InsufficientFunds` exactly
when `cash < q*p`, and on success the new cash equals the old cash minus
`q*p`. -/
theorem buy_cash_rule (P : Portfolio) (t : String) (q p : Rat) (now : String) :
    (P.cash < q * p ↔
      buy_stock P t q p now = (P, Except.error TradeError.insufficientFunds)) ∧
    (¬ P.cash < q * p →
      (buy_stock P t q p now).2 = Except.ok ("txn_" ++ toString (P.transactions.length + 1)) ∧
      (buy_stock P t q p now).1.cash = P.cash - q * p) := by
  constructor
  · constructor
    · exact buy_stock_of_lt
    · intro h
      by_contra hge
      rcases hf : findPosition P.positions t with _ | pos
      · rw [buy_stock_ok_new hge hf] at h
        simp at h
      · rw [buy_stock_ok_existing hge hf] at h
        simp at h
  · intro hge
    rcases hf : findPosition P.positions t with _ | pos
    · rw [buy_stock_ok_new hge hf]
      exact ⟨rfl, rfl⟩
    · rw [buy_stock_ok_existing hge hf]
      exact ⟨rfl, rfl⟩

/-- C3 witness: buying exactly the available cash is permitted and leaves
cash at 0 — `freshLedger` has 100000 and buys 10 shares at 10000. -/
theorem buy_cash_rule_eval :
    (buy_stock freshLedger "AAPL" 10 10000 "t1").2 = Except.ok "txn_1" ∧
    (buy_stock freshLedger "AAPL" 10 10000 "t1").1.cash = 0 := by
  have h := (buy_cash_rule freshLedger "AAPL" 10 10000 "t1").2 (by norm_num [freshLedger])
  refine ⟨?_, ?_⟩
  · rw [h.1]
    rfl
  · rw [h.2]
    norm_num [freshLedger]

/-- C5: whenever a buy or sell fails (with any of `InsufficientFunds`,
`InsufficientShares`, `PositionNotFound`), the portfolio's cash, positions
and transactions are all exactly as before the operation. -/
theorem failed_ops_leave_state_unchanged (P : Portfolio) (t : String) (q p : Rat)
    (now : String) :
    (∀ e, (buy_stock P t q p now).2 = Except.error e →
      (buy_stock P t q p now).1.cash = P.cash ∧
      (buy_stock P t q p now).1.positions = P.positions ∧
      (buy_stock P t q p now).1.transactions = P.transactions) ∧
    (∀ e, (sell_stock P t q p now).2 = Except.error e →
      (sell_stock P t q p now).1.cash = P.cash ∧
      (sell_stock P t q p now).1.positions = P.positions ∧
      (sell_stock P t q p now).1.transactions = P.transactions) := by
  constructor
  · intro e he
    by_cases h : P.cash < q * p
    · rw [buy_stock_of_lt h]
      exact ⟨rfl, rfl, rfl⟩
    · exfalso
      rcases hf : findPosition P.positions t with _ | pos
      · rw [buy_stock_ok_new h hf] at he
        simp at he
      · rw [buy_stock_ok_existing h hf] at he
        simp at he
  · intro e he
    rcases hf : findPosition P.positions t with _ | pos
    · rw [sell_stock_not_found hf]
      exact ⟨rfl, rfl, rfl⟩
    · by_cases hq : pos.quantity < q
      · rw [sell_stock_insufficient hf hq]
        exact ⟨rfl, rfl, rfl⟩
      · exfalso
        rw [sell_stock_ok hf hq] at he
        simp at he

/-- C5 witness: selling more AAPL than held fails with `InsufficientShares`
and leaves the one-position sample ledger untouched. -/
theorem failed_ops_leave_state_unchanged_eval :
    (sell_stock sampleLedger "AAPL" 11 50 "t1").1.cash = sampleLedger.cash ∧
    (sell_stock sampleLedger "AAPL" 11 50 "t1").1.positions = sampleLedger.positions ∧
    (sell_stock sampleLedger "AAPL" 11 50 "t1").1.transactions = sampleLedger.transactions := by
  refine (failed_ops_leave_state_unchanged sampleLedger "AAPL" 11 50 "t1").2
    TradeError.insufficientShares ?_
  have hf : findPosition sampleLedger.positions "AAPL" = some applePos := by decide
  rw [sell_stock_insufficient hf (by norm_num [applePos])]

/-! ### Inversion lemmas for successful operations -/

lemma buy_stock_ok_inv {P Q : Portfolio} {t : String} {q p : Rat} {now r : String}
    (h : buy_stock P t q p now = (Q, Except.ok r)) :
    Q.cash = P.cash - q * p ∧ ¬ P.cash < q * p := by
  by_cases hc : P.cash < q * p
  · rw [buy_stock_of_lt hc] at h
    simp at h
  · refine ⟨?_, hc⟩
    rcases hf : findPosition P.positions t with _ | pos
    · rw [buy_stock_ok_new hc hf] at h
      injection h with h1 h2
      rw [← h1]
    · rw [buy_stock_ok_existing hc hf] at h
      injection h with h1 h2
      rw [← h1]

lemma sell_stock_ok_inv {P Q : Portfolio} {t : String} {q p : Rat} {now r : String}
    (h : sell_stock P t q p now = (Q, Except.ok r)) :
    Q.cash = P.cash + q * p := by
  rcases hf : findPosition P.positions t with _ | pos
  · rw [sell_stock_not_found hf] at h
    simp at h
  · by_cases hq : pos.quantity < q
    · rw [sell_stock_insufficient hf hq] at h
      simp at h
    · rw [sell_stock_ok hf hq] at h
      injection h with h1 h2
      rw [← h1]

lemma buy_stock_ok_transactions {P Q : Portfolio} {t : String} {q p : Rat} {now r : String}
    (h : buy_stock P t q p now = (Q, Except.ok r)) :
    Q.transactions = P.transactions ++
      [{ id := "txn_" ++ toString (P.transactions.length + 1), ticker := t, type := "buy",
         quantity := q, price := p, timestamp := now, fees := 0 }] ∧
    r = "txn_" ++ toString (P.transactions.length + 1) := by
  by_cases hc : P.cash < q * p
  · rw [buy_stock_of_lt hc] at h
    simp at h
  · rcases hf : findPosition P.positions t with _ | pos
    · rw [buy_stock_ok_new hc hf] at h
      injection h with h1 h2
      injection h2 with h3
      exact ⟨by rw [← h1], h3.symm⟩
    · rw [buy_stock_ok_existing hc hf] at h
      injection h with h1 h2
      injection h2 with h3
      exact ⟨by rw [← h1], h3.symm⟩

lemma sell_stock_ok_transactions {P Q : Portfolio} {t : String} {q p : Rat} {now r : String}
    (h : sell_stock P t q p now = (Q, Except.ok r)) :
    Q.transactions = P.transactions ++
      [{ id := "txn_" ++ toString (P.transactions.length + 1), ticker := t, type := "sell",
         quantity := q, price := p, timestamp := now, fees := 0 }] ∧
    r = "txn_" ++ toString (P.transactions.length + 1) := by
  rcases hf : findPosition P.positions t with _ | pos
  · rw [sell_stock_not_found hf] at h
    simp at h
  · by_cases hq : pos.quantity < q
    · rw [sell_stock_insufficient hf hq] at h
      simp at h
    · rw [sell_stock_ok hf hq] at h
      injection h with h1 h2
      injection h2 with h3
      exact ⟨by rw [← h1], h3.symm⟩

/-- C2: a sell fails with `PositionNotFound` when no position carries the
ticker, fails with `InsufficientShares` when the held quantity is strictly
below the requested one (both leaving the portfolio unchanged), and
otherwise succeeds: cash grows by `q*p`, the position's quantity shrinks
by `q` with its average cost basis untouched, and the position is removed
entirely when the remaining quantity is zero. -/
theorem sell_rules (P : Portfolio) (t : String) (q p : Rat) (now : String) :
    ((∀ x ∈ P.positions, x.ticker ≠ t) →
      sell_stock P t q p now = (P, Except.error TradeError.positionNotFound)) ∧
    (∀ pos, findPosition P.positions t = some pos → pos.quantity < q →
      sell_stock P t q p now = (P, Except.error TradeError.insufficientShares)) ∧
    (∀ l1 pos l2, P.positions = l1 ++ pos :: l2 → pos.ticker = t →
      (∀ x ∈ l1, x.ticker ≠ t) → ¬ pos.quantity < q →
      (sell_stock P t q p now).2 =
        Except.ok ("txn_" ++ toString (P.transactions.length + 1)) ∧
      (sell_stock P t q p now).1.cash = P.cash + q * p ∧
      (sell_stock P t q p now).1.positions =
        (if pos.quantity - q = 0 then l1 ++ l2
         else l1 ++ { pos with quantity := pos.quantity - q } :: l2)) := by
  refine ⟨?_, ?_, ?_⟩
  · intro hnone
    exact sell_stock_not_found (findPosition_eq_none.mpr hnone)
  · intro pos hf hq
    exact sell_stock_insufficient hf hq
  · intro l1 pos l2 hsplit hticker hleft hq
    have hf : findPosition P.positions t = some pos := by
      rw [hsplit, findPosition_append hleft, findPosition_cons_of_eq _ hticker]
    rw [sell_stock_ok hf hq]
    refine ⟨rfl, rfl, ?_⟩
    simp only [hsplit, sellUpdate_append hleft, sellUpdate_cons_of_eq _ _ hticker]
    by_cases hz : pos.quantity - q = 0 <;> simp [hz]

/-- C2 witness: selling exactly the 10 held AAPL shares at 50 is accepted,
adds 500 cash and removes the position entirely. -/
theorem sell_rules_eval :
    (sell_stock sampleLedger "AAPL" 10 50 "t1").2 = Except.ok "txn_1" ∧
    (sell_stock sampleLedger "AAPL" 10 50 "t1").1.cash = 10500 ∧
    (sell_stock sampleLedger "AAPL" 10 50 "t1").1.positions = [] := by
  have h := (sell_rules sampleLedger "AAPL" 10 50 "t1").2.2 [] applePos []
      (by simp [sampleLedger]) rfl (by simp) (by norm_num [applePos])
  refine ⟨?_, ?_, ?_⟩
  · rw [h.1]
    rfl
  · rw [h.2.1]
    norm_num [sampleLedger]
  · rw [h.2.2]
    norm_num [applePos]

/-- C4: starting from non-negative cash, any sequence of accepted buys and
sells with positive quantities and non-negative prices keeps cash
non-negative (and hence so does every prefix of the sequence). -/
theorem accepted_ops_keep_cash_nonneg (P : Portfolio) (ops : List Op) (Q : Portfolio)
    (hP : 0 ≤ P.cash) (hops : ∀ op ∈ ops, validOp op) (h : runOps P ops = some Q) :
    0 ≤ Q.cash := by
  induction ops generalizing P with
  | nil =>
    simp only [runOps, Option.some.injEq] at h
    rw [← h]
    exact hP
  | cons op rest ih =>
    cases op with
    | buy t qq pp now =>
      simp only [runOps, applyOp] at h
      rcases happ : buy_stock P t qq pp now with ⟨R, res⟩
      rw [happ] at h
      cases res with
      | error e => simp at h
      | ok r =>
        have hinv := buy_stock_ok_inv happ
        refine ih R ?_ (fun o ho => hops o (List.mem_cons_of_mem _ ho)) h
        rw [hinv.1]
        have := not_lt.mp hinv.2
        linarith
    | sell t qq pp now =>
      simp only [runOps, applyOp] at h
      rcases happ : sell_stock P t qq pp now with ⟨R, res⟩
      rw [happ] at h
      cases res with
      | error e => simp at h
      | ok r =>
        have hv := hops _ (List.mem_cons_self _ _)
        have hinv := sell_stock_ok_inv happ
        refine ih R ?_ (fun o ho => hops o (List.mem_cons_of_mem _ ho)) h
        rw [hinv]
        have : 0 ≤ qq * pp := mul_nonneg (le_of_lt hv.1) hv.2
        linarith

/-- C4 witness: after the accepted buy of 10 AAPL at 100 from the fresh
ledger, cash (99000) is still non-negative. -/
theorem accepted_ops_keep_cash_nonneg_eval : (0 : Rat) ≤ afterBuy.cash := by
  refine accepted_ops_keep_cash_nonneg freshLedger [Op.buy "AAPL" 10 100 "t1"] afterBuy
    (by norm_num [freshLedger]) ?_ ?_
  · intro op hop
    simp only [List.mem_singleton] at hop
    subst hop
    exact ⟨by norm_num, by norm_num⟩
  · have hb : buy_stock freshLedger "AAPL" 10 100 "t1" = (afterBuy, Except.ok "txn_1") := by
      rw [buy_stock_ok_new (by norm_num [freshLedger]) (by rfl)]
      norm_num [freshLedger, afterBuy, Prod.ext_iff]
      rfl
    simp [runOps, applyOp, hb]

/-- C10: every transaction appended by a successful buy or sell carries
`fees = 0`; since the request only supplies ticker, quantity and price, no
input produces a nonzero fee. -/
theorem appended_transaction_fees_zero (P : Portfolio) (t : String) (q p : Rat)
    (now : String) :
    (¬ P.cash < q * p →
      (buy_stock P t q p now).1.transactions = P.transactions ++
        [{ id := "txn_" ++ toString (P.transactions.length + 1), ticker := t, type := "buy",
           quantity := q, price := p, timestamp := now, fees := 0 }]) ∧
    (∀ pos, findPosition P.positions t = some pos → ¬ pos.quantity < q →
      (sell_stock P t q p now).1.transactions = P.transactions ++
        [{ id := "txn_" ++ toString (P.transactions.length + 1), ticker := t, type := "sell",
           quantity := q, price := p, timestamp := now, fees := 0 }]) ∧
    (∀ Q r, buy_stock P t q p now = (Q, Except.ok r) ∨
        sell_stock P t q p now = (Q, Except.ok r) →
      ∀ tx ∈ Q.transactions, tx ∈ P.transactions ∨ tx.fees = 0) := by
  refine ⟨?_, ?_, ?_⟩
  · intro hc
    rcases hf : findPosition P.positions t with _ | pos
    · rw [buy_stock_ok_new hc hf]
    · rw [buy_stock_ok_existing hc hf]
  · intro pos hf hq
    rw [sell_stock_ok hf hq]
  · rintro Q r (h | h) tx htx
    · rw [(buy_stock_ok_transactions h).1] at htx
      rcases List.mem_append.mp htx with hold | hnew
      · exact Or.inl hold
      · simp only [List.mem_singleton] at hnew
        subst hnew
        exact Or.inr rfl
    · rw [(sell_stock_ok_transactions h).1] at htx
      rcases List.mem_append.mp htx with hold | hnew
      · exact Or.inl hold
      · simp only [List.mem_singleton] at hnew
        subst hnew
        exact Or.inr rfl

/-- C10 witness: the transaction appended by buying 10 AAPL at 200 from the
sample ledger has `fees = 0`. -/
theorem appended_transaction_fees_zero_eval :
    (buy_stock sampleLedger "AAPL" 10 200 "t1").1.transactions =
      [{ id := "txn_1", ticker := "AAPL", type := "buy", quantity := 10, price := 200,
         timestamp := "t1", fees := 0 }] := by
  have h := (appended_transaction_fees_zero sampleLedger "AAPL" 10 200 "t1").1
    (by norm_num [sampleLedger])
  rw [h]
  rfl

/-- C8: valuation computes, per position, `marketValue = quantity * currentPrice`,
`unrealizedPL = marketValue - quantity*avgCostBasis`, and a percentage that is
`unrealizedPL / costBasis * 100` when the cost basis is strictly positive and
`0` otherwise (in particular `0` whenever `avgCostBasis = 0`); and the
aggregates `totalValue = cash + Σ marketValue`,
`totalPL = totalValue - (cash + Σ costBasis)`, with the same guarded
percentage over the total cost basis. -/
theorem valuation_formulas (price : String → Rat) (P : Portfolio) :
    (calculate_portfolio_metrics price P).positions = P.positions.map (valuePosition price) ∧
    (∀ pos : Position,
      (valuePosition price pos).currentPrice = some (price pos.ticker) ∧
      (valuePosition price pos).marketValue = some (pos.quantity * price pos.ticker) ∧
      (valuePosition price pos).unrealizedPL =
        some (pos.quantity * price pos.ticker - pos.quantity * pos.avgCostBasis) ∧
      (0 < pos.quantity * pos.avgCostBasis →
        (valuePosition price pos).unrealizedPLPercent =
          some ((pos.quantity * price pos.ticker - pos.quantity * pos.avgCostBasis) /
            (pos.quantity * pos.avgCostBasis) * 100)) ∧
      (¬ 0 < pos.quantity * pos.avgCostBasis →
        (valuePosition price pos).unrealizedPLPercent = some 0) ∧
      (pos.avgCostBasis = 0 → (valuePosition price pos).unrealizedPLPercent = some 0)) ∧
    (calculate_portfolio_metrics price P).totalValue =
      some (P.cash + (P.positions.map (positionMarketValue price)).sum) ∧
    (calculate_portfolio_metrics price P).totalPL =
      some (totalMarketValue price P - totalCostBasis P) ∧
    (0 < totalCostBasis P →
      (calculate_portfolio_metrics price P).totalPLPercent =
        some ((totalMarketValue price P - totalCostBasis P) / totalCostBasis P * 100)) ∧
    (¬ 0 < totalCostBasis P →
      (calculate_portfolio_metrics price P).totalPLPercent = some 0) := by
  refine ⟨rfl, ?_, rfl, rfl, ?_, ?_⟩
  · intro pos
    refine ⟨rfl, rfl, rfl, ?_, ?_, ?_⟩
    · intro h
      simp [valuePosition, positionMarketValue, positionCostBasis, h]
    · intro h
      simp [valuePosition, positionMarketValue, positionCostBasis, h]
    · intro h
      simp [valuePosition, positionMarketValue, positionCostBasis, h]
  · intro h
    simp [calculate_portfolio_metrics, h]
  · intro h
    simp [calculate_portfolio_metrics, h]

/-- C8 witness: at oracle price 180 the sample position of 15 shares with
average cost 160 shows an unrealized gain of 12.5 percent, and a position
with `avgCostBasis = 0` shows percentage 0. -/
theorem valuation_formulas_eval :
    (valuePosition (fun _ => 180)
      { ticker := "AAPL", quantity := 15, avgCostBasis := 160, addedAt := "t1" }
      ).unrealizedPLPercent = some (25 / 2) ∧
    (valuePosition (fun _ => 0)
      { ticker := "ZERO", quantity := 5, avgCostBasis := 0, addedAt := "t1" }
      ).unrealizedPLPercent = some 0 := by
  constructor
  · have h := ((valuation_formulas (fun _ => 180) freshLedger).2.1
      { ticker := "AAPL", quantity := 15, avgCostBasis := 160, addedAt := "t1" }).2.2.2.1
      (by norm_num)
    rw [h]
    norm_num
  · exact ((valuation_formulas (fun _ => 0) freshLedger).2.1
      { ticker := "ZERO", quantity := 5, avgCostBasis := 0, addedAt := "t1" }).2.2.2.2.2 rfl

/-- C9: the performance computation runs the valuation; its report carries
the supplied initial value, `currentValue` equal to the valuation's
`totalValue`, `totalReturn = (totalValue - initialValue)/initialValue*100`,
`investedValue = totalValue - cash`, and the valuation's `totalPL`,
`totalPLPercent` and the portfolio's cash; `get_performance` is exactly
this computation supplied with the fixed initial value 100000. -/
theorem performance_report (price : String → Rat) (P : Portfolio) (iv : Rat) :
    get_performance price P = computePerformance price P 100000 ∧
    (computePerformance price P iv).initialValue = iv ∧
    (computePerformance price P iv).currentValue = totalMarketValue price P ∧
    (calculate_portfolio_metrics price P).totalValue =
      some ((computePerformance price P iv).currentValue) ∧
    (computePerformance price P iv).totalReturn =
      ((computePerformance price P iv).currentValue - iv) / iv * 100 ∧
    (computePerformance price P iv).investedValue =
      (computePerformance price P iv).currentValue - P.cash ∧
    (computePerformance price P iv).cash = P.cash ∧
    (calculate_portfolio_metrics price P).totalPL =
      some ((computePerformance price P iv).totalPL) ∧
    (calculate_portfolio_metrics price P).totalPLPercent =
      some ((computePerformance price P iv).totalPLPercent) := by
  refine ⟨rfl, rfl, rfl, rfl, rfl, rfl, rfl, rfl, rfl⟩

/-- C6 counterexample: a buy request with negative quantity (−1 at price
10) is not rejected with any error: `buy_stock` accepts it (no validation
exists in the code) and mutates state, raising cash from 100000 to 100010. -/
theorem invalid_buy_not_rejected :
    (buy_stock freshLedger "AAPL" (-1) 10 "t1").2 = Except.ok "txn_1" ∧
    (buy_stock freshLedger "AAPL" (-1) 10 "t1").1.cash = 100010 := by
  have h : ¬ freshLedger.cash < (-1) * 10 := by norm_num [freshLedger]
  rw [buy_stock_ok_new h (by rfl)]
  exact ⟨rfl, by norm_num [freshLedger]⟩

lemma buyUpdateChecked_crash {t : String} {q p : Rat} {l : List Position} {pos : Position}
    (hf : findPosition l t = some pos) (hz : pos.quantity + q = 0) :
    buyUpdateChecked t q p l = none := by
  induction l with
  | nil => simp [findPosition] at hf
  | cons x rest ih =>
    by_cases hx : x.ticker = t
    · rw [findPosition_cons_of_eq _ hx] at hf
      injection hf with hf
      subst hf
      simp [buyUpdateChecked, hx, hz]
    · rw [findPosition_cons_of_ne _ hx] at hf
      have hxb : (x.ticker == t) = false := beq_eq_false_iff_ne.mpr hx
      simp [buyUpdateChecked, hxb, ih hf]

lemma buyUpdateChecked_ok {t : String} {q p : Rat} {l : List Position}
    (h : ∀ pos, findPosition l t = some pos → pos.quantity + q ≠ 0) :
    buyUpdateChecked t q p l = some (buyUpdate t q p l) := by
  induction l with
  | nil => rfl
  | cons x rest ih =>
    by_cases hx : x.ticker = t
    · have hnz : x.quantity + q ≠ 0 := h x (findPosition_cons_of_eq _ hx)
      simp [buyUpdateChecked, buyUpdate, hx, hnz]
    · have hxb : (x.ticker == t) = false := beq_eq_false_iff_ne.mpr hx
      have h' : ∀ pos, findPosition rest t = some pos → pos.quantity + q ≠ 0 := by
        intro pos hf
        exact h pos (by rw [findPosition_cons_of_ne _ hx]; exact hf)
      simp [buyUpdateChecked, buyUpdate, hxb, ih h']

/-- C6 amended: the code performs no `InvalidArgument` validation — for
every quantity and price, non-positive quantities and negative prices
included, the outcome is decided by the ordinary business checks alone.
A buy passing the funds check is accepted and mutates cash (and the
crash-aware model agrees with `buy_stock`) as long as it does not bring an
existing position's total quantity to exactly zero; in that one corner the
source instead crashes with an unhandled `ZeroDivisionError` at the
average-cost division, so the request is not accepted and nothing is
saved.  A sell passing the position and share checks is always accepted
and mutates cash. -/
theorem no_argument_validation (P : Portfolio) (t : String) (q p : Rat) (now : String) :
    (¬ P.cash < q * p →
      (∀ pos, findPosition P.positions t = some pos → pos.quantity + q ≠ 0) →
      buy_stock_checked P t q p now = some (buy_stock P t q p now) ∧
      (buy_stock P t q p now).2 =
        Except.ok ("txn_" ++ toString (P.transactions.length + 1)) ∧
      (buy_stock P t q p now).1.cash = P.cash - q * p) ∧
    (∀ pos, findPosition P.positions t = some pos → pos.quantity + q = 0 →
      ¬ P.cash < q * p → buy_stock_checked P t q p now = none) ∧
    (∀ pos, findPosition P.positions t = some pos → ¬ pos.quantity < q →
      (sell_stock P t q p now).2 =
        Except.ok ("txn_" ++ toString (P.transactions.length + 1)) ∧
      (sell_stock P t q p now).1.cash = P.cash + q * p) := by
  refine ⟨?_, ?_, ?_⟩
  · intro hge hnz
    rcases hf : findPosition P.positions t with _ | pos
    · rw [buy_stock_ok_new hge hf]
      refine ⟨?_, rfl, rfl⟩
      simp [buy_stock_checked, hge, hf]
    · rw [buy_stock_ok_existing hge hf]
      refine ⟨?_, rfl, rfl⟩
      simp [buy_stock_checked, hge, hf, buyUpdateChecked_ok hnz]
  · intro pos hf hz hge
    simp [buy_stock_checked, hge, hf, buyUpdateChecked_crash hf hz]
  · intro pos hf hq
    rw [sell_stock_ok hf hq]
    exact ⟨rfl, rfl⟩

/-- C6 amended witness: buying −2 MSFT at 5 from the fresh ledger is
accepted (in both models) and leaves cash at 100010, while buying −10 AAPL
at 5 against the sample holding of exactly 10 AAPL hits the
division-by-zero crash: the checked model returns `none`. -/
theorem no_argument_validation_eval :
    (buy_stock freshLedger "MSFT" (-2) 5 "t1").2 = Except.ok "txn_1" ∧
    (buy_stock freshLedger "MSFT" (-2) 5 "t1").1.cash = 100010 ∧
    buy_stock_checked freshLedger "MSFT" (-2) 5 "t1" =
      some (buy_stock freshLedger "MSFT" (-2) 5 "t1") ∧
    buy_stock_checked sampleLedger "AAPL" (-10) 5 "t1" = none := by
  have h1 := (no_argument_validation freshLedger "MSFT" (-2) 5 "t1").1
    (by norm_num [freshLedger])
    (by intro pos hf; simp [freshLedger, findPosition] at hf)
  have h2 := (no_argument_validation sampleLedger "AAPL" (-10) 5 "t1").2.1 applePos
    (by decide) (by norm_num [applePos]) (by norm_num [sampleLedger])
  refine ⟨?_, ?_, h1.1, h2⟩
  · rw [h1.2.1]
    rfl
  · rw [h1.2.2]
    norm_num [freshLedger]

/-! ### Decimal representation: `Nat.repr` is injective -/

lemma reprChars_of_lt {n : Nat} (h : n < 10) : reprChars n = [Nat.digitChar n] := by
  rw [reprChars, if_pos h]

lemma reprChars_of_ge {n : Nat} (h : ¬ n < 10) :
    reprChars n = reprChars (n / 10) ++ [Nat.digitChar (n % 10)] := by
  conv_lhs => rw [reprChars]
  rw [if_neg h]

lemma reprChars_ne_nil (n : Nat) : reprChars n ≠ [] := by
  by_cases h : n < 10
  · simp [reprChars_of_lt h]
  · simp [reprChars_of_ge h]

lemma digitChar_inj_lt : ∀ a < 10, ∀ b < 10, Nat.digitChar a = Nat.digitChar b → a = b := by
  decide

lemma toDigitsCore_eq_reprChars (fuel : Nat) :
    ∀ (n : Nat) (acc : List Char), n < fuel →
      Nat.toDigitsCore 10 fuel n acc = reprChars n ++ acc := by
  induction fuel with
  | zero =>
    intro n acc h
    omega
  | succ fuel ih =>
    intro n acc h
    rw [show Nat.toDigitsCore 10 (fuel + 1) n acc =
        if n / 10 = 0 then Nat.digitChar (n % 10) :: acc
        else Nat.toDigitsCore 10 fuel (n / 10) (Nat.digitChar (n % 10) :: acc) from rfl]
    by_cases h10 : n / 10 = 0
    · have hn : n < 10 := by omega
      rw [if_pos h10, reprChars_of_lt hn, Nat.mod_eq_of_lt hn]
      rfl
    · have hge : ¬ n < 10 := by omega
      have hdiv : n / 10 < fuel := by omega
      rw [if_neg h10, ih (n / 10) (Nat.digitChar (n % 10) :: acc) hdiv,
        reprChars_of_ge hge, List.append_assoc]
      rfl

lemma reprChars_inj : ∀ m n : Nat, reprChars m = reprChars n → m = n := by
  intro m
  induction m using Nat.strong_induction_on with
  | _ m ih =>
    intro n h
    by_cases hm : m < 10 <;> by_cases hn : n < 10
    · rw [reprChars_of_lt hm, reprChars_of_lt hn] at h
      simp only [List.cons.injEq, and_true] at h
      exact digitChar_inj_lt m hm n hn h
    · exfalso
      rw [reprChars_of_lt hm, reprChars_of_ge hn] at h
      have hlen := congrArg List.length h
      simp only [List.length_singleton, List.length_append] at hlen
      have : (reprChars (n / 10)).length = 0 := by omega
      exact reprChars_ne_nil (n / 10) (List.length_eq_zero.mp this)
    · exfalso
      rw [reprChars_of_ge hm, reprChars_of_lt hn] at h
      have hlen := congrArg List.length h
      simp only [List.length_singleton, List.length_append] at hlen
      have : (reprChars (m / 10)).length = 0 := by omega
      exact reprChars_ne_nil (m / 10) (List.length_eq_zero.mp this)
    · rw [reprChars_of_ge hm, reprChars_of_ge hn] at h
      obtain ⟨h1, h2⟩ := List.append_inj' h (by simp)
      simp only [List.cons.injEq, and_true] at h2
      have hd := digitChar_inj_lt (m % 10) (Nat.mod_lt _ (by omega)) (n % 10)
        (Nat.mod_lt _ (by omega)) h2
      have hq := ih (m / 10) (Nat.div_lt_self (by omega) (by omega)) (n / 10) h1
      omega

lemma nat_repr_inj {m n : Nat} (h : Nat.repr m = Nat.repr n) : m = n := by
  have hm : Nat.toDigits 10 m = reprChars m := by
    rw [Nat.toDigits, toDigitsCore_eq_reprChars (m + 1) m [] (by omega), List.append_nil]
  have hn : Nat.toDigits 10 n = reprChars n := by
    rw [Nat.toDigits, toDigitsCore_eq_reprChars (n + 1) n [] (by omega), List.append_nil]
  have h' : (reprChars m).asString = (reprChars n).asString := by
    rw [← hm, ← hn]
    exact h
  exact reprChars_inj m n (congrArg String.data h')

lemma txnId_inj {m n : Nat} (h : "txn_" ++ toString m = "txn_" ++ toString n) : m = n := by
  have h' := congrArg String.data h
  simp only [String.data_append] at h'
  exact nat_repr_inj (String.ext (List.append_cancel_left h'))

/-! ### Transaction-log lemmas -/

lemma idsList_snoc {l : List Transaction} {tx : Transaction}
    (hseq : ∀ i (h : i < l.length), (l[i]).id = "txn_" ++ toString (i + 1))
    (hid : tx.id = "txn_" ++ toString (l.length + 1)) :
    ∀ i (h : i < (l ++ [tx]).length), ((l ++ [tx])[i]).id = "txn_" ++ toString (i + 1) := by
  intro i h
  rw [List.length_append, List.length_singleton] at h
  by_cases hlt : i < l.length
  · rw [List.getElem_append_left hlt]
    exact hseq i hlt
  · have hi : i = l.length := by omega
    subst hi
    rw [List.getElem_append_right (le_refl _)]
    simpa using hid

lemma idsSequential_snoc {P Q : Portfolio} {tx : Transaction}
    (hseq : idsSequential P) (hQ : Q.transactions = P.transactions ++ [tx])
    (hid : tx.id = "txn_" ++ toString (P.transactions.length + 1)) :
    idsSequential Q := by
  unfold idsSequential
  rw [hQ]
  exact idsList_snoc hseq hid

lemma applyOp_ok_step {P Q : Portfolio} {op : Op} {r : String}
    (h : applyOp P op = (Q, Except.ok r)) :
    ∃ tx : Transaction, Q.transactions = P.transactions ++ [tx] ∧
      tx.id = "txn_" ++ toString (P.transactions.length + 1) ∧ r = tx.id := by
  cases op with
  | buy t q p now =>
    have h' := buy_stock_ok_transactions (h : buy_stock P t q p now = (Q, Except.ok r))
    exact ⟨_, h'.1, rfl, h'.2⟩
  | sell t q p now =>
    have h' := sell_stock_ok_transactions (h : sell_stock P t q p now = (Q, Except.ok r))
    exact ⟨_, h'.1, rfl, h'.2⟩

lemma runOps_ids {ops : List Op} {P Q : Portfolio} (h : runOps P ops = some Q) :
    (∃ l, Q.transactions = P.transactions ++ l) ∧ (idsSequential P → idsSequential Q) := by
  induction ops generalizing P with
  | nil =>
    simp only [runOps, Option.some.injEq] at h
    subst h
    exact ⟨⟨[], by simp⟩, id⟩
  | cons op rest ih =>
    simp only [runOps] at h
    rcases happ : applyOp P op with ⟨R, res⟩
    rw [happ] at h
    cases res with
    | error e => simp at h
    | ok r =>
      obtain ⟨tx, htx, hid, -⟩ := applyOp_ok_step happ
      obtain ⟨⟨l, hl⟩, hpres⟩ := ih h
      refine ⟨⟨tx :: l, ?_⟩, fun hseq => hpres (idsSequential_snoc hseq htx hid)⟩
      rw [hl, htx, List.append_assoc]
      rfl

/-- C7: every accepted buy or sell appends exactly one transaction, whose id
is `txn_<n>` with `n = 1 + the number of transactions already logged`; over
any run of accepted operations from a portfolio whose log already reads
`txn_1, txn_2, …`, the log still reads `txn_1, txn_2, …` (so ids are
assigned in strictly increasing numeric order), its ids are pairwise
distinct, and the prior transactions survive unmutated as a prefix of the
new log. -/
theorem transaction_id_assignment (P : Portfolio) (ops : List Op) (Q : Portfolio)
    (hseq : idsSequential P) (h : runOps P ops = some Q) :
    (∀ (R S : Portfolio) (op : Op) (r : String), applyOp R op = (S, Except.ok r) →
      ∃ tx : Transaction, S.transactions = R.transactions ++ [tx] ∧
        tx.id = "txn_" ++ toString (R.transactions.length + 1) ∧ r = tx.id) ∧
    (∃ l, Q.transactions = P.transactions ++ l) ∧
    idsSequential Q ∧
    (∀ i j (hi : i < Q.transactions.length) (hj : j < Q.transactions.length), i ≠ j →
      (Q.transactions[i]).id ≠ (Q.transactions[j]).id) := by
  have hQseq : idsSequential Q := (runOps_ids h).2 hseq
  refine ⟨fun R S op r hop => applyOp_ok_step hop, (runOps_ids h).1, hQseq, ?_⟩
  intro i j hi hj hij heq
  rw [hQseq i hi, hQseq j hj] at heq
  have := txnId_inj heq
  omega

/-- C7 witness: after the two accepted buys leading to `afterTwoBuys`, the
log reads `txn_1, txn_2` and the two ids are distinct. -/
theorem transaction_id_assignment_eval :
    afterTwoBuys.transactions.map Transaction.id = ["txn_1", "txn_2"] ∧
    (afterTwoBuys.transactions.get ⟨0, by simp [afterTwoBuys]⟩).id ≠
      (afterTwoBuys.transactions.get ⟨1, by simp [afterTwoBuys]⟩).id := by
  have hb1 : buy_stock freshLedger "AAPL" 10 100 "t1" = (afterBuy, Except.ok "txn_1") := by
    rw [buy_stock_ok_new (by norm_num [freshLedger]) (by rfl)]
    norm_num [freshLedger, afterBuy, Prod.ext_iff]
    rfl
  have hf2 : findPosition afterBuy.positions "AAPL" =
      some { ticker := "AAPL", quantity := 10, avgCostBasis := 100, addedAt := "t1" } := by
    rfl
  have hb2 : buy_stock afterBuy "AAPL" 10 200 "t2" = (afterTwoBuys, Except.ok "txn_2") := by
    rw [buy_stock_ok_existing (by norm_num [afterBuy]) hf2]
    norm_num [afterBuy, afterTwoBuys, Prod.ext_iff, buyUpdate]
    rfl
  have hrun : runOps freshLedger [Op.buy "AAPL" 10 100 "t1", Op.buy "AAPL" 10 200 "t2"] =
      some afterTwoBuys := by
    simp [runOps, applyOp, hb1, hb2]
  have h := transaction_id_assignment freshLedger
    [Op.buy "AAPL" 10 100 "t1", Op.buy "AAPL" 10 200 "t2"] afterTwoBuys
    (fun i hi => absurd hi (by simp [freshLedger])) hrun
  exact ⟨rfl, h.2.2.2 0 1 (by simp [afterTwoBuys]) (by simp [afterTwoBuys]) (by omega)⟩

end PortfolioService
